import Mathlib

/-!
Verification of the screenshot utility (`screenshot.py`, `demo_app.py`).

The development shallowly embeds:
* `_fix_panel_css_paths` — the regex substitution
  `re.sub(r"static/extensions/panel/([^\"'?\s]+)(\?[^\"']*)?", cdn_base/g1, html)`
  as an executable function on character lists (`fixSub`), modelling
  Python's leftmost, non-overlapping, greedy scan.  `\s` is modelled as
  the six ASCII whitespace characters.
* `_render_html_to_png` — as the ordered list of Playwright actions it
  performs.
* `save_screenshot` — as a deterministic state-passing function over an
  explicit filesystem model, parameterised by the outcomes of the
  external collaborators (the layout producer, `os.makedirs`,
  `tempfile.mkstemp`, Panel's `target.save`, the rewrite I/O and
  Playwright), producing a result, a final filesystem and an event
  trace.  `os.path.join` follows the POSIX rules (an absolute second
  argument discards the first; no duplicated separator), and
  `os.path.abspath` joins the working directory onto relative paths and
  then normalises the result with `posixpath.normpath` semantics.
* `screenshot_button`'s click handler — as a function from the capture
  outcome to the sequence of status-indicator states it sets.
-/

/-- Code points matched by Python's Unicode-aware `\s` in a `str`
pattern (CPython's `_PyUnicode_IsWhitespace`): the ASCII whitespace and
separators 0x09-0x0D, 0x1C-0x1F, 0x20, plus 0x85, 0xA0, 0x1680,
0x2000-0x200A, 0x2028, 0x2029, 0x202F, 0x205F and 0x3000. -/
def pySpaceVals : List Nat :=
  [0x09, 0x0A, 0x0B, 0x0C, 0x0D, 0x1C, 0x1D, 0x1E, 0x1F, 0x20, 0x85, 0xA0,
   0x1680, 0x2000, 0x2001, 0x2002, 0x2003, 0x2004, 0x2005, 0x2006, 0x2007,
   0x2008, 0x2009, 0x200A, 0x2028, 0x2029, 0x202F, 0x205F, 0x3000]

/-- `\s` of the source pattern (Unicode semantics of `re` on `str`). -/
def isPySpace (c : Char) : Bool := pySpaceVals.contains c.toNat

/-- Character class `[^\"'?\s]` of the first capture group: anything but a
double quote, single quote, question mark, or Python whitespace. -/
def cls1 (c : Char) : Bool :=
  !(c == '"' || c == '\'' || c == '?' || isPySpace c)

/-- Character class `[^\"']` of the query-string group: anything but a
double or single quote. -/
def cls2 (c : Char) : Bool := !(c == '"' || c == '\'')

/-- The literal part of the pattern, `static/extensions/panel/` (24 chars). -/
def panelLit : List Char := "static/extensions/panel/".data

/-- Given the text right after the first capture group, consume the
optional `(\?[^\"']*)?` group greedily: a `?` followed by as many
non-quote characters as possible; otherwise consume nothing. -/
def stripQuery (r : List Char) : List Char :=
  match r with
  | [] => []
  | c :: t => if c = '?' then t.dropWhile cls2 else c :: t

/-- Fuel-indexed worker for the substitution: scan left to right; at each
position, if the literal matches and the first group can take at least
one character, emit `cdn ++ '/' ++ group1` (dropping the query group) and
continue after the match; otherwise keep the character and advance by
one.  This mirrors `re.sub`'s leftmost non-overlapping greedy semantics
for this pattern (no backtracking can occur: group 1 excludes `?` and the
trailing group is optional). -/
def fixSubGo (cdn : List Char) : Nat → List Char → List Char
  | 0, s => s
  | _ + 1, [] => []
  | fuel + 1, c :: cs =>
    if panelLit.isPrefixOf (c :: cs) then
      if ((cs.drop 23).takeWhile cls1).isEmpty then
        c :: fixSubGo cdn fuel cs
      else
        cdn ++ '/' :: ((cs.drop 23).takeWhile cls1
          ++ fixSubGo cdn fuel (stripQuery ((cs.drop 23).dropWhile cls1)))
    else
      c :: fixSubGo cdn fuel cs

/-- The substitution itself: the input's length is always enough fuel. -/
def fixSub (cdn : List Char) (s : List Char) : List Char :=
  fixSubGo cdn s.length s

/-- `cdn_base = f"https://cdn.holoviz.org/panel/{version}/dist"`. -/
def cdnBase (version : String) : String :=
  "https://cdn.holoviz.org/panel/" ++ version ++ "/dist"

/-- `_fix_panel_css_paths` as a transformation of the HTML content (the
read-transform-write around it lives in the `save_screenshot` model). -/
def fixPanelCssPaths (version : String) (html : String) : String :=
  ⟨fixSub (cdnBase version).data html.data⟩

/-- The pattern has a match starting at the head of `s`: the literal is a
prefix and the first (mandatory, one-or-more) group is nonempty. -/
def matchableB (s : List Char) : Bool :=
  panelLit.isPrefixOf s && !((s.drop 24).takeWhile cls1).isEmpty

/-- No suffix of `s` has a match at its head, i.e. `re.sub` leaves `s`
unchanged. -/
def noMatchableB : List Char → Bool
  | [] => true
  | c :: cs => !matchableB (c :: cs) && noMatchableB cs

theorem length_dropWhile_le' (p : Char → Bool) (l : List Char) :
    (l.dropWhile p).length ≤ l.length := by
  induction l with
  | nil => simp [List.dropWhile]
  | cons a l ih =>
    simp only [List.dropWhile]
    cases p a
    · simp
    · simp only [List.length_cons]
      exact Nat.le_trans ih (Nat.le_succ _)

theorem stripQuery_eq_of_ne (c : Char) (t : List Char) (h : ¬ c = '?') :
    stripQuery (c :: t) = c :: t := by
  simp only [stripQuery, if_neg h]

theorem stripQuery_query (t : List Char) :
    stripQuery ('?' :: t) = t.dropWhile cls2 := by
  simp [stripQuery]

theorem length_stripQuery_le (r : List Char) : (stripQuery r).length ≤ r.length := by
  match r with
  | [] => simp [stripQuery]
  | c :: t =>
    by_cases h : c = '?'
    · subst h
      simp only [stripQuery, List.length_cons]
      exact Nat.le_trans (length_dropWhile_le' cls2 t) (Nat.le_succ _)
    · rw [stripQuery_eq_of_ne c t h]

theorem length_drop_le' (n : Nat) (l : List Char) : (l.drop n).length ≤ l.length := by
  simp [List.length_drop]

theorem fixSubGo_fuel (cdn : List Char) :
    ∀ f₁ f₂ s, s.length ≤ f₁ → s.length ≤ f₂ →
      fixSubGo cdn f₁ s = fixSubGo cdn f₂ s := by
  intro f₁
  induction f₁ with
  | zero =>
    intro f₂ s h₁ _
    have hs : s = [] := List.eq_nil_of_length_eq_zero (Nat.le_zero.mp h₁)
    subst hs
    cases f₂ <;> rfl
  | succ f ih =>
    intro f₂ s h₁ h₂
    match s with
    | [] => cases f₂ <;> rfl
    | c :: cs =>
      match f₂ with
      | 0 => simp at h₂
      | g + 1 =>
        have hcs₁ : cs.length ≤ f := by simpa using h₁
        have hcs₂ : cs.length ≤ g := by simpa using h₂
        have hr : (stripQuery ((cs.drop 23).dropWhile cls1)).length ≤ cs.length := by
          calc (stripQuery ((cs.drop 23).dropWhile cls1)).length
              ≤ ((cs.drop 23).dropWhile cls1).length := length_stripQuery_le _
            _ ≤ (cs.drop 23).length := length_dropWhile_le' _ _
            _ ≤ cs.length := length_drop_le' _ _
        show (if panelLit.isPrefixOf (c :: cs) then _ else _) =
          (if panelLit.isPrefixOf (c :: cs) then _ else _)
        by_cases hp : panelLit.isPrefixOf (c :: cs)
        · rw [if_pos hp, if_pos hp]
          by_cases hg : ((cs.drop 23).takeWhile cls1).isEmpty
          · rw [if_pos hg, if_pos hg, ih g cs hcs₁ hcs₂]
          · rw [if_neg hg, if_neg hg,
              ih g _ (Nat.le_trans hr hcs₁) (Nat.le_trans hr hcs₂)]
        · rw [if_neg hp, if_neg hp, ih g cs hcs₁ hcs₂]

theorem fixSub_nil (cdn : List Char) : fixSub cdn [] = [] := rfl

theorem fixSub_cons_nomatch (cdn : List Char) (c : Char) (cs : List Char)
    (h : panelLit.isPrefixOf (c :: cs) = false) :
    fixSub cdn (c :: cs) = c :: fixSub cdn cs := by
  show fixSubGo cdn (cs.length + 1) (c :: cs) = c :: fixSubGo cdn cs.length cs
  show (if panelLit.isPrefixOf (c :: cs) then _ else _) = _
  rw [if_neg (by simp [h])]

theorem fixSub_cons_g1empty (cdn : List Char) (c : Char) (cs : List Char)
    (h : panelLit.isPrefixOf (c :: cs) = true)
    (hg : ((cs.drop 23).takeWhile cls1).isEmpty = true) :
    fixSub cdn (c :: cs) = c :: fixSub cdn cs := by
  show fixSubGo cdn (cs.length + 1) (c :: cs) = c :: fixSubGo cdn cs.length cs
  show (if panelLit.isPrefixOf (c :: cs) then _ else _) = _
  rw [if_pos h, if_pos hg]

theorem fixSub_cons_match (cdn : List Char) (c : Char) (cs : List Char)
    (h : panelLit.isPrefixOf (c :: cs) = true)
    (hg : ((cs.drop 23).takeWhile cls1).isEmpty = false) :
    fixSub cdn (c :: cs) =
      cdn ++ '/' :: ((cs.drop 23).takeWhile cls1
        ++ fixSub cdn (stripQuery ((cs.drop 23).dropWhile cls1))) := by
  have hr : (stripQuery ((cs.drop 23).dropWhile cls1)).length ≤ cs.length := by
    calc (stripQuery ((cs.drop 23).dropWhile cls1)).length
        ≤ ((cs.drop 23).dropWhile cls1).length := length_stripQuery_le _
      _ ≤ (cs.drop 23).length := length_dropWhile_le' _ _
      _ ≤ cs.length := length_drop_le' _ _
  show fixSubGo cdn (cs.length + 1) (c :: cs) = _
  show (if panelLit.isPrefixOf (c :: cs) then _ else _) = _
  rw [if_pos h, if_neg (by simp [hg]),
    fixSubGo_fuel cdn cs.length _ _ hr (Nat.le_refl _)]
  rfl

theorem isPrefixOf_append_self (l m : List Char) : l.isPrefixOf (l ++ m) = true := by
  induction l with
  | nil => simp [List.isPrefixOf]
  | cons a l ih => simp [List.isPrefixOf, ih]

theorem takeWhile_append_of_all (p : Char → Bool) (l x : List Char)
    (h : ∀ c ∈ l, p c = true) :
    (l ++ x).takeWhile p = l ++ x.takeWhile p := by
  induction l with
  | nil => simp
  | cons a l ih =>
    rw [List.cons_append, List.takeWhile_cons_of_pos (h a (by simp)),
      ih (fun c hc => h c (by simp [hc]))]
    rfl

theorem dropWhile_append_of_all (p : Char → Bool) (l x : List Char)
    (h : ∀ c ∈ l, p c = true) :
    (l ++ x).dropWhile p = x.dropWhile p := by
  induction l with
  | nil => simp
  | cons a l ih =>
    rw [List.cons_append, List.dropWhile_cons_of_pos (h a (by simp)),
      ih (fun c hc => h c (by simp [hc]))]

theorem panelLit_length : panelLit.length = 24 := by decide

/-- If the head of `s` does not start a match, the scan keeps the head. -/
theorem fixSub_cons_of_not_matchable (cdn : List Char) (c : Char) (cs : List Char)
    (h : matchableB (c :: cs) = false) :
    fixSub cdn (c :: cs) = c :: fixSub cdn cs := by
  by_cases hp : panelLit.isPrefixOf (c :: cs)
  · have hg : ((cs.drop 23).takeWhile cls1).isEmpty = true := by
      have : ((c :: cs).drop 24).takeWhile cls1 = (cs.drop 23).takeWhile cls1 := rfl
      simp only [matchableB, hp, Bool.true_and, Bool.not_eq_false'] at h
      rw [← this]
      exact h
    exact fixSub_cons_g1empty cdn c cs hp hg
  · exact fixSub_cons_nomatch cdn c cs
      (by simp only [Bool.not_eq_true] at hp; exact hp)

/-- A document with no matchable position is left unchanged by the scan. -/
theorem fixSub_of_noMatchable (cdn : List Char) (s : List Char)
    (h : noMatchableB s = true) : fixSub cdn s = s := by
  induction s with
  | nil => rfl
  | cons c cs ih =>
    have h' : matchableB (c :: cs) = false ∧ noMatchableB cs = true := by
      have := h
      simp only [noMatchableB, Bool.and_eq_true, Bool.not_eq_true'] at this
      exact this
    rw [fixSub_cons_of_not_matchable cdn c cs h'.1, ih h'.2]

/-- Rendering of the optional query group `(\?[^\"']*)?`. -/
def renderQuery : Option (List Char) → List Char
  | none => []
  | some qs => '?' :: qs

/-- Boundary condition after a reference: the text following it must not
extend the greedy groups (this is what makes the decomposition agree
with the regex's maximal munch). -/
def refBoundary : Option (List Char) → List Char → Prop
  | none, [] => True
  | none, c :: _ => cls1 c = false ∧ c ≠ '?'
  | some _, [] => True
  | some _, c :: _ => cls2 c = false

/-- A decomposition of an HTML document into non-matching characters and
static-asset references `static/extensions/panel/<rest>` with optional
query strings, paired with the document where every reference has been
replaced by `<cdn>/<rest>` (query string dropped). -/
inductive PanelRefSplit (cdn : List Char) : List Char → List Char → Prop where
  | nil : PanelRefSplit cdn [] []
  | plainChar (c : Char) (s t : List Char) :
      matchableB (c :: s) = false → PanelRefSplit cdn s t →
      PanelRefSplit cdn (c :: s) (c :: t)
  | ref (g1 : List Char) (q : Option (List Char)) (rest t : List Char) :
      g1 ≠ [] → (∀ c ∈ g1, cls1 c = true) →
      (∀ qs, q = some qs → ∀ c ∈ qs, cls2 c = true) →
      refBoundary q rest →
      PanelRefSplit cdn rest t →
      PanelRefSplit cdn (panelLit ++ g1 ++ renderQuery q ++ rest)
        (cdn ++ '/' :: (g1 ++ t))

theorem fixSub_match_at (cdn : List Char) (s : List Char)
    (hp : panelLit.isPrefixOf s = true)
    (hg : ((s.drop 24).takeWhile cls1).isEmpty = false) :
    fixSub cdn s =
      cdn ++ '/' :: ((s.drop 24).takeWhile cls1
        ++ fixSub cdn (stripQuery ((s.drop 24).dropWhile cls1))) := by
  match s with
  | [] => simp [panelLit, List.isPrefixOf] at hp
  | c :: cs => exact fixSub_cons_match cdn c cs hp hg

/-- C1: every static-asset reference `static/extensions/panel/<rest>`,
optionally followed by a version query string, is replaced by
`https://cdn.holoviz.org/panel/<version>/dist/<rest>` with the query
string stripped, at every occurrence in the document
(`PanelRefSplit` decomposes the document into its references and
non-matching characters, and pairs it with the rewritten document). -/
theorem fix_panel_css_paths_rewrites_references (version : String)
    (s t : List Char)
    (h : PanelRefSplit (cdnBase version).data s t) :
    fixSub (cdnBase version).data s = t := by
  induction h with
  | nil => rfl
  | plainChar c s t hm _ ih =>
    rw [fixSub_cons_of_not_matchable _ c s hm, ih]
  | ref g1 q rest t hne hg1 hq hb _ ih =>
    have hY : panelLit ++ g1 ++ renderQuery q ++ rest
        = panelLit ++ (g1 ++ (renderQuery q ++ rest)) := by
      simp [List.append_assoc]
    rw [hY]
    have hp : panelLit.isPrefixOf
        (panelLit ++ (g1 ++ (renderQuery q ++ rest))) = true :=
      isPrefixOf_append_self _ _
    have hdrop : (panelLit ++ (g1 ++ (renderQuery q ++ rest))).drop 24
        = g1 ++ (renderQuery q ++ rest) := by
      rw [← panelLit_length]
      exact List.drop_left _ _
    have htail : (renderQuery q ++ rest).takeWhile cls1 = [] := by
      cases q with
      | none =>
        cases rest with
        | nil => rfl
        | cons c r =>
          have hb1 : cls1 c = false := hb.1
          simp only [renderQuery, List.nil_append]
          exact List.takeWhile_cons_of_neg (by simp [hb1])
      | some qs =>
        simp only [renderQuery, List.cons_append]
        exact List.takeWhile_cons_of_neg (by decide)
    have htake : (g1 ++ (renderQuery q ++ rest)).takeWhile cls1 = g1 := by
      rw [takeWhile_append_of_all cls1 g1 _ hg1, htail, List.append_nil]
    have hg1e : g1.isEmpty = false := by
      cases g1 with
      | nil => exact absurd rfl hne
      | cons a l => rfl
    have hdw : (g1 ++ (renderQuery q ++ rest)).dropWhile cls1
        = (renderQuery q ++ rest).dropWhile cls1 :=
      dropWhile_append_of_all cls1 g1 _ hg1
    have hstrip : stripQuery ((renderQuery q ++ rest).dropWhile cls1) = rest := by
      cases q with
      | none =>
        cases rest with
        | nil => rfl
        | cons c r =>
          have hb1 : cls1 c = false := hb.1
          have hb2 : c ≠ '?' := hb.2
          simp only [renderQuery, List.nil_append]
          rw [List.dropWhile_cons_of_neg (by simp [hb1])]
          exact stripQuery_eq_of_ne c r hb2
      | some qs =>
        have hqs : ∀ c ∈ qs, cls2 c = true := hq qs rfl
        simp only [renderQuery, List.cons_append]
        rw [List.dropWhile_cons_of_neg (by decide), stripQuery_query,
          dropWhile_append_of_all cls2 qs rest hqs]
        cases rest with
        | nil => rfl
        | cons c r =>
          have hbc : cls2 c = false := hb
          exact List.dropWhile_cons_of_neg (by simp [hbc])
    rw [fixSub_match_at _ _ hp (by rw [hdrop, htake]; exact hg1e)]
    rw [hdrop, htake, hdw, hstrip, ih]

theorem fix_panel_css_paths_rewrites_references_witness :
    fixSub (cdnBase "1.8.7").data
        ('<' :: (panelLit ++ ['a'] ++ renderQuery (some ['v', '=', '1']) ++ ['"']))
      = '<' :: ((cdnBase "1.8.7").data ++ '/' :: (['a'] ++ ['"'])) :=
  fix_panel_css_paths_rewrites_references "1.8.7" _ _
    (.plainChar '<' _ _ (by decide)
      (.ref ['a'] (some ['v', '=', '1']) ['"'] ['"'] (by decide) (by decide)
        (by intro qs h; cases h; decide) ((by decide : cls2 '"' = false))
        (.plainChar '"' [] [] (by decide) .nil)))

/-- C9 counterexample: the rewrite is not idempotent — when a reference's
`<rest>` part itself contains `static/extensions/panel/`, the rewritten
CDN URL still matches the pattern and a second pass rewrites it again. -/
theorem fix_rewrite_not_idempotent :
    fixPanelCssPaths "1.8.7" (fixPanelCssPaths "1.8.7"
        "static/extensions/panel/static/extensions/panel/x")
      ≠ fixPanelCssPaths "1.8.7" "static/extensions/panel/static/extensions/panel/x" := by
  decide

/-- C9 amended: applying the rewrite twice equals applying it once
whenever the once-rewritten document has no remaining matchable
reference (no occurrence of `static/extensions/panel/` followed by at
least one non-delimiter character). -/
theorem fix_rewrite_idempotent_of_settled (version : String) (html : String)
    (h : noMatchableB (fixPanelCssPaths version html).data = true) :
    fixPanelCssPaths version (fixPanelCssPaths version html)
      = fixPanelCssPaths version html :=
  congrArg String.mk (fixSub_of_noMatchable (cdnBase version).data _ h)

theorem fix_rewrite_idempotent_of_settled_witness :
    noMatchableB (fixPanelCssPaths "1.8.7"
        "<a href=\"static/extensions/panel/css/m.css?v=1\">").data = true
    ∧ fixPanelCssPaths "1.8.7" (fixPanelCssPaths "1.8.7"
        "<a href=\"static/extensions/panel/css/m.css?v=1\">")
      = fixPanelCssPaths "1.8.7" "<a href=\"static/extensions/panel/css/m.css?v=1\">" :=
  ⟨by decide, fix_rewrite_idempotent_of_settled "1.8.7" _ (by decide)⟩

/-- Exception values flowing through the capture operation.  The message
is what `str(e)` would show. -/
inductive Err where
  | producerError (msg : String)
  | osError (msg : String)
  | serializationError (msg : String)
  | playwrightError (msg : String)
deriving DecidableEq, Repr

/-- `str(e)` of a modelled exception. -/
def errText : Err → String
  | .producerError m => m
  | .osError m => m
  | .serializationError m => m
  | .playwrightError m => m

/-- Flat filesystem model: a set of existing directories and a list of
files (path, content); the head entry for a path is its content. -/
structure FS where
  dirs : List String
  files : List (String × String)
deriving DecidableEq, Repr

def FS.existsFile (fs : FS) (p : String) : Bool :=
  fs.files.any (fun f => f.1 == p)

def FS.writeFile (fs : FS) (p c : String) : FS :=
  ⟨fs.dirs, (p, c) :: fs.files.filter (fun f => f.1 != p)⟩

def FS.unlink (fs : FS) (p : String) : FS :=
  ⟨fs.dirs, fs.files.filter (fun f => f.1 != p)⟩

def FS.makedirs (fs : FS) (d : String) : FS :=
  if fs.dirs.contains d then fs else ⟨d :: fs.dirs, fs.files⟩

/-- Events of one `save_screenshot` call, in the order they happen. -/
inductive Ev where
  | callProducer
  | makedirs (dir : String)
  | mkstemp (path : String)
  | saveHtml (path : String)
  | fixPaths (path : String)
  | threadStart
  | renderedPng (path : String)
  | slotWrite (e : Option Err)
  | threadJoin
  | slotRead (e : Option Err)
  | unlink (path : String)
deriving DecidableEq, Repr

/-- The `layout` argument: a concrete component, or a zero-argument
callable producing one (`layout() if callable(layout) else layout`). -/
inductive LayoutArg where
  | value
  | producer
deriving DecidableEq, Repr

/-- Outcomes of the external collaborators for one call: `some e` means
that step raises `e`; the strings are the values the collaborators
produce on success. -/
structure Beh where
  producerRes : Option Err
  makedirsRes : Option Err
  mkstempRes : Option Err
  tmpName : String
  saveRes : Option Err
  htmlContent : String
  fixRes : Option Err
  renderRes : Option Err
  version : String
  timestamp : String
deriving Repr

structure RunResult where
  result : Except Err String
  fs : FS
  trace : List Ev
deriving Repr

/-- `filename` defaulting: `screenshot_<YYYYMMDD_HHMMSS>.png`. -/
def resolvedFilename (beh : Beh) (filename : Option String) : String :=
  match filename with
  | some f => f
  | none => "screenshot_" ++ beh.timestamp ++ ".png"

/-- `os.path.isabs` on a character list: the path starts with a slash. -/
def isAbsL : List Char → Bool
  | [] => false
  | c :: _ => c == '/'

/-- `os.path.isabs`: the path starts with a slash. -/
def isAbs (p : String) : Bool := isAbsL p.data

/-- `path.split('/')` on a character list. -/
def splitSlashD : List Char → List (List Char)
  | [] => [[]]
  | c :: cs =>
    if c = '/' then [] :: splitSlashD cs
    else
      match splitSlashD cs with
      | [] => [[c]]
      | h :: t => (c :: h) :: t

/-- `'/'.join(comps)` on character lists. -/
def joinComps : List (List Char) → List Char
  | [] => []
  | [c] => c
  | c :: rest => c ++ '/' :: joinComps rest

/-- The number of leading slashes `normpath` keeps: one for an absolute
path, or exactly two when the path starts with exactly two slashes (the
POSIX special case), zero for a relative path. -/
def initSlashes (p : List Char) : Nat :=
  if isAbsL p then
    if p.take 2 = ['/', '/'] ∧ ¬ p.take 3 = ['/', '/', '/'] then 2 else 1
  else 0

/-- One step of `normpath`'s component loop: skip empty and `.`
components, append anything that is not `..` (or a `..` that must be
kept: relative path with nothing before it, or stacked on another `..`),
otherwise pop the previous component if any. -/
def normStep (isl : Nat) (acc : List (List Char)) (comp : List Char) :
    List (List Char) :=
  if comp = [] ∨ comp = ['.'] then acc
  else if ¬ comp = ['.', '.'] ∨ (isl = 0 ∧ acc = [])
      ∨ acc.getLast? = some ['.', '.'] then acc ++ [comp]
  else if ¬ acc = [] then acc.dropLast
  else acc

/-- `posixpath.normpath`: drop empty and `.` components, resolve `..`
against preceding components (keeping leading `..` of relative paths and
dropping `..` at an absolute root), preserve one or exactly two leading
slashes, return `.` for an empty result. -/
def normpathL (p : List Char) : List Char :=
  if p = [] then ['.']
  else if List.replicate (initSlashes p) '/'
      ++ joinComps ((splitSlashD p).foldl (normStep (initSlashes p)) []) = []
    then ['.']
  else List.replicate (initSlashes p) '/'
      ++ joinComps ((splitSlashD p).foldl (normStep (initSlashes p)) [])

/-- `posixpath.join` for two arguments: an absolute second argument
discards the first; otherwise append, inserting a `/` unless the first
argument is empty or already ends in one. -/
def joinPath (a b : String) : String :=
  if isAbs b then b
  else if a.data = [] ∨ a.data.getLast? = some '/' then a ++ b
  else a ++ "/" ++ b

/-- `os.path.abspath`: join the working directory onto a relative path,
then normalise. -/
def abspath (cwd p : String) : String :=
  ⟨normpathL (if isAbs p then p.data else (joinPath cwd p).data)⟩

/-- The path `tempfile.mkstemp(suffix=".html", dir=save_dir)` allocates. -/
def tmpHtmlPath (beh : Beh) (save_dir : String) : String :=
  joinPath save_dir (beh.tmpName ++ ".html")

/-- The `finally` block (lines 129-131): delete the temporary HTML file
if the variable was set and the file exists. -/
def cleanupFS (fs : FS) (tmp : Option String) : FS :=
  match tmp with
  | none => fs
  | some p => if fs.existsFile p then fs.unlink p else fs

def cleanupTrace (fs : FS) (tmp : Option String) : List Ev :=
  match tmp with
  | none => []
  | some p => if fs.existsFile p then [.unlink p] else []

/-- Trace of resolving the `layout` argument (line 92). -/
def producerTrace : LayoutArg → List Ev
  | .producer => [.callProducer]
  | .value => []

/-- `save_screenshot(layout, save_dir, filename)` as a deterministic
function of the collaborator outcomes `beh`, a working directory and an
initial filesystem.  Mirrors the source line by line: resolve the
layout, `os.makedirs`, resolve the filename, compute the absolute output
path, then inside `try`: `mkstemp`, `target.save`,
`_fix_panel_css_paths`, render on a worker thread with a single-slot
error holder, re-raise a held error or return the output path — with the
`finally` cleanup applied on every exit path. -/
def save_screenshot (beh : Beh) (layout : LayoutArg) (save_dir : String)
    (filename : Option String) (cwd : String) (fs0 : FS) : RunResult :=
  match layout, beh.producerRes with
  | .producer, some e => ⟨.error e, fs0, [.callProducer]⟩
  | _, _ =>
    match beh.makedirsRes with
    | some e => ⟨.error e, fs0, producerTrace layout ++ [.makedirs save_dir]⟩
    | none =>
      let fs1 := fs0.makedirs save_dir
      let output_path := abspath cwd (joinPath save_dir (resolvedFilename beh filename))
      let tr0 := producerTrace layout ++ [.makedirs save_dir]
      match beh.mkstempRes with
      | some e => ⟨.error e, cleanupFS fs1 none, tr0 ++ cleanupTrace fs1 none⟩
      | none =>
        let tmp := tmpHtmlPath beh save_dir
        let fs2 := fs1.writeFile tmp ""
        let tr1 := tr0 ++ [.mkstemp tmp]
        match beh.saveRes with
        | some e =>
          ⟨.error e, cleanupFS fs2 (some tmp), tr1 ++ cleanupTrace fs2 (some tmp)⟩
        | none =>
          let fs3 := fs2.writeFile tmp beh.htmlContent
          let tr2 := tr1 ++ [.saveHtml tmp]
          match beh.fixRes with
          | some e =>
            ⟨.error e, cleanupFS fs3 (some tmp), tr2 ++ cleanupTrace fs3 (some tmp)⟩
          | none =>
            let fs4 := fs3.writeFile tmp (fixPanelCssPaths beh.version beh.htmlContent)
            let tr3 := tr2 ++ [.fixPaths tmp]
            match beh.renderRes with
            | some e =>
              let tr4 := tr3 ++ [.threadStart, .slotWrite (some e), .threadJoin,
                .slotRead (some e)]
              ⟨.error e, cleanupFS fs4 (some tmp), tr4 ++ cleanupTrace fs4 (some tmp)⟩
            | none =>
              let fs5 := fs4.writeFile output_path "PNG"
              let tr4 := tr3 ++ [.threadStart, .renderedPng output_path, .threadJoin,
                .slotRead none]
              ⟨.ok output_path, cleanupFS fs5 (some tmp), tr4 ++ cleanupTrace fs5 (some tmp)⟩

/-- One Playwright page action of `_render_html_to_png`. -/
inductive PwAction where
  | launch (headless : Bool)
  | newPage (width height : Nat)
  | goto (url : String) (waitUntil : String)
  | waitForTimeout (ms : Nat)
  | screenshot (path : String) (fullPage : Bool)
  | closeBrowser
deriving DecidableEq, Repr

/-- `_render_html_to_png(html_path, output_path)`: the Playwright calls
it performs, in order (lines 63-69). -/
def renderHtmlToPngActions (html_path output_path : String) : List PwAction :=
  [ .launch true,
    .newPage 1280 720,
    .goto ("file://" ++ html_path) "networkidle",
    .waitForTimeout 2000,
    .screenshot output_path true,
    .closeBrowser ]

/-- State of the `pn.pane.Alert` status indicator. -/
structure Status where
  visible : Bool
  alert_type : String
  object : String
deriving DecidableEq, Repr

/-- The `on_click` handler of `screenshot_button` (lines 158-170), as the
sequence of status-indicator states it sets: first the in-progress
state, then — depending on the outcome of `save_screenshot` — the
success state with the returned path or the failure state with the
error text.  All failures are caught; the handler always runs to
completion. -/
def onClick (saveResult : Except Err String) : List Status :=
  let inProgress : Status := ⟨true, "info", "Taking screenshot..."⟩
  match saveResult with
  | .ok p => [inProgress, ⟨true, "success", "Saved: " ++ p⟩]
  | .error e => [inProgress, ⟨true, "danger", "Error: " ++ errText e⟩]

theorem filter_ne_any_eq_false (l : List (String × String)) (p : String) :
    (l.filter (fun f => f.1 != p)).any (fun f => f.1 == p) = false := by
  induction l with
  | nil => rfl
  | cons a l ih =>
    rw [List.filter_cons]
    by_cases h : (a.1 == p) = true
    · have hb : (a.1 != p) = false := by simp only [bne, h, Bool.not_true]
      rw [hb]
      simp only [Bool.false_eq_true, if_false]
      exact ih
    · have h' : (a.1 == p) = false := by
        simp only [Bool.not_eq_true] at h
        exact h
      have hb : (a.1 != p) = true := by simp only [bne, h', Bool.not_false]
      rw [hb, if_pos rfl, List.any_cons, h', ih]
      rfl

theorem cleanupFS_none (fs : FS) : cleanupFS fs none = fs := rfl

theorem cleanupFS_removes (fs : FS) (p : String) :
    (cleanupFS fs (some p)).existsFile p = false := by
  by_cases h : fs.existsFile p = true
  · show (if fs.existsFile p then fs.unlink p else fs).existsFile p = false
    rw [if_pos h]
    exact filter_ne_any_eq_false fs.files p
  · have h' : fs.existsFile p = false := by
      simp only [Bool.not_eq_true] at h
      exact h
    show (if fs.existsFile p then fs.unlink p else fs).existsFile p = false
    rw [if_neg h]
    exact h'

theorem makedirs_existsFile (fs : FS) (d p : String) :
    (fs.makedirs d).existsFile p = fs.existsFile p := by
  unfold FS.makedirs
  by_cases h : fs.dirs.contains d = true
  · rw [if_pos h]
  · rw [if_neg h]
    rfl

/-- C2: on every path through the capture operation — normal return or an
exception from serialization, path rewriting or rasterization — the
temporary HTML file created by the call does not exist afterwards. -/
theorem tmp_html_never_survives (beh : Beh) (layout : LayoutArg)
    (save_dir : String) (filename : Option String) (cwd : String) (fs0 : FS)
    (hfresh : fs0.existsFile (tmpHtmlPath beh save_dir) = false) :
    (save_screenshot beh layout save_dir filename cwd fs0).fs.existsFile
      (tmpHtmlPath beh save_dir) = false := by
  cases layout <;> cases hp : beh.producerRes <;>
    cases hm : beh.makedirsRes <;> cases hk : beh.mkstempRes <;>
    cases hs : beh.saveRes <;> cases hf : beh.fixRes <;>
    cases hr : beh.renderRes <;>
    simp [save_screenshot, hp, hm, hk, hs, hf, hr, hfresh, cleanupFS_removes,
      cleanupFS_none, makedirs_existsFile]

def behOK : Beh :=
  ⟨none, none, none, "tmpf", none, "<p>hi</p>", none, none, "1.8.7",
    "20260101_120000"⟩

theorem tmp_html_never_survives_witness :
    FS.existsFile ⟨[], []⟩ (tmpHtmlPath behOK "screenshots") = false
    ∧ (save_screenshot behOK .producer "screenshots" none "/home/user"
        ⟨[], []⟩).fs.existsFile (tmpHtmlPath behOK "screenshots") = false :=
  ⟨by decide,
    tmp_html_never_survives behOK .producer "screenshots" none "/home/user"
      ⟨[], []⟩ (by decide)⟩

theorem writeFile_existsFile_self (fs : FS) (p c : String) :
    (fs.writeFile p c).existsFile p = true := by
  show ((p, c) :: _).any (fun f => f.1 == p) = true
  rw [List.any_cons]
  simp

theorem cleanupTrace_write_self (fs : FS) (p c : String) :
    cleanupTrace (fs.writeFile p c) (some p) = [.unlink p] := by
  show (if (fs.writeFile p c).existsFile p then _ else _) = _
  rw [if_pos (writeFile_existsFile_self fs p c)]

/-- C3: an exception raised by the rasterization worker is written to the
single-slot holder, read after the join, and re-raised identically on
the calling side; when the slot is empty the call returns normally. -/
theorem worker_error_reraised_after_join (beh : Beh) (layout : LayoutArg)
    (save_dir : String) (filename : Option String) (cwd : String) (fs0 : FS)
    (hp : beh.producerRes = none) (hm : beh.makedirsRes = none)
    (hk : beh.mkstempRes = none) (hs : beh.saveRes = none)
    (hf : beh.fixRes = none) :
    (∀ e, beh.renderRes = some e →
      (save_screenshot beh layout save_dir filename cwd fs0).result = .error e
      ∧ (save_screenshot beh layout save_dir filename cwd fs0).trace
        = producerTrace layout ++
          [.makedirs save_dir, .mkstemp (tmpHtmlPath beh save_dir),
           .saveHtml (tmpHtmlPath beh save_dir),
           .fixPaths (tmpHtmlPath beh save_dir), .threadStart,
           .slotWrite (some e), .threadJoin, .slotRead (some e),
           .unlink (tmpHtmlPath beh save_dir)])
    ∧ (beh.renderRes = none →
      (save_screenshot beh layout save_dir filename cwd fs0).result
        = .ok (abspath cwd (joinPath save_dir (resolvedFilename beh filename)))) := by
  constructor
  · intro e hr
    cases layout <;>
      simp [save_screenshot, hp, hm, hk, hs, hf, hr, producerTrace,
        cleanupTrace_write_self]
  · intro hr
    cases layout <;>
      simp [save_screenshot, hp, hm, hk, hs, hf, hr]

def behRF : Beh :=
  ⟨none, none, none, "tmpf", none, "<p>hi</p>", none,
    some (.playwrightError "boom"), "1.8.7", "20260101_120000"⟩

theorem worker_error_reraised_after_join_witness :
    (save_screenshot behRF .value "screenshots" none "/cwd" ⟨[], []⟩).result
      = .error (.playwrightError "boom") :=
  ((worker_error_reraised_after_join behRF .value "screenshots" none "/cwd"
    ⟨[], []⟩ rfl rfl rfl rfl rfl).1 (.playwrightError "boom") rfl).1

theorem filter_ne_any_other (l : List (String × String)) (p q : String)
    (h : q ≠ p) :
    (l.filter (fun f => f.1 != p)).any (fun f => f.1 == q)
      = l.any (fun f => f.1 == q) := by
  induction l with
  | nil => rfl
  | cons a l ih =>
    rw [List.filter_cons]
    by_cases hap : (a.1 == p) = true
    · have hb : (a.1 != p) = false := by simp only [bne, hap, Bool.not_true]
      rw [hb]
      simp only [Bool.false_eq_true, if_false]
      have haq : (a.1 == q) = false := by
        have hap' : a.1 = p := eq_of_beq hap
        rw [hap']
        exact beq_eq_false_iff_ne.mpr (Ne.symm h)
      rw [ih, List.any_cons, haq]
      rfl
    · have h' : (a.1 == p) = false := by
        simp only [Bool.not_eq_true] at hap
        exact hap
      have hb : (a.1 != p) = true := by simp only [bne, h', Bool.not_false]
      rw [hb, if_pos rfl, List.any_cons, List.any_cons, ih]

theorem cleanupFS_existsFile_other (fs : FS) (p q : String) (h : q ≠ p) :
    (cleanupFS fs (some p)).existsFile q = fs.existsFile q := by
  show (if fs.existsFile p then fs.unlink p else fs).existsFile q = _
  by_cases he : fs.existsFile p = true
  · rw [if_pos he]
    exact filter_ne_any_other fs.files p q h
  · rw [if_neg he]

theorem isPrefixOf_of_eq_append (l m n : List Char) (h : n = l ++ m) :
    l.isPrefixOf n = true :=
  h ▸ isPrefixOf_append_self l m

theorem splitSlashD_ne_nil (p : List Char) : splitSlashD p ≠ [] := by
  cases p with
  | nil => simp [splitSlashD]
  | cons c cs =>
    by_cases h : c = '/'
    · simp [splitSlashD, h]
    · simp only [splitSlashD, if_neg h]
      cases splitSlashD cs <;> simp

theorem splitSlashD_cons_slash (cs : List Char) :
    splitSlashD ('/' :: cs) = [] :: splitSlashD cs := by
  simp [splitSlashD]

theorem splitSlashD_cons_ne (c : Char) (cs : List Char) (h : ¬ c = '/')
    (hh : List Char) (t : List (List Char)) (hs : splitSlashD cs = hh :: t) :
    splitSlashD (c :: cs) = (c :: hh) :: t := by
  simp only [splitSlashD, if_neg h, hs]

theorem joinComps_cons₂ (a b : List Char) (t : List (List Char)) :
    joinComps (a :: b :: t) = a ++ '/' :: joinComps (b :: t) := rfl

theorem joinComps_splitSlashD (p : List Char) : joinComps (splitSlashD p) = p := by
  induction p with
  | nil => rfl
  | cons c cs ih =>
    cases hs : splitSlashD cs with
    | nil => exact absurd hs (splitSlashD_ne_nil cs)
    | cons hh t =>
      by_cases h : c = '/'
      · subst h
        rw [splitSlashD_cons_slash, hs, joinComps_cons₂, List.nil_append, ← hs, ih]
      · rw [splitSlashD_cons_ne c cs h hh t hs]
        cases t with
        | nil =>
          show c :: hh = c :: cs
          have : joinComps [hh] = cs := by rw [← hs, ih]
          rw [show joinComps [hh] = hh from rfl] at this
          rw [this]
        | cons t1 ts =>
          rw [joinComps_cons₂]
          have : joinComps (hh :: t1 :: ts) = cs := by rw [← hs, ih]
          rw [joinComps_cons₂] at this
          rw [List.cons_append, this]

theorem splitSlashD_append_slash (a b : List Char) :
    splitSlashD (a ++ '/' :: b) = splitSlashD a ++ splitSlashD b := by
  induction a with
  | nil => rw [List.nil_append, splitSlashD_cons_slash]; rfl
  | cons c a' ih =>
    by_cases h : c = '/'
    · subst h
      rw [List.cons_append, splitSlashD_cons_slash, ih, splitSlashD_cons_slash,
        List.cons_append]
    · cases hs : splitSlashD a' with
      | nil => exact absurd hs (splitSlashD_ne_nil a')
      | cons hh t =>
        have h1 : splitSlashD (a' ++ '/' :: b) = hh :: (t ++ splitSlashD b) := by
          rw [ih, hs, List.cons_append]
        rw [List.cons_append,
          splitSlashD_cons_ne c (a' ++ '/' :: b) h hh (t ++ splitSlashD b) h1,
          splitSlashD_cons_ne c a' h hh t hs, List.cons_append]

theorem splitSlashD_no_slash (c : List Char) (h : '/' ∉ c) :
    splitSlashD c = [c] := by
  induction c with
  | nil => rfl
  | cons d t ih =>
    have hd : ¬ d = '/' := fun hh => h (by simp [hh])
    have ht : '/' ∉ t := fun hm => h (List.mem_cons_of_mem _ hm)
    exact splitSlashD_cons_ne d t hd t [] (ih ht)

theorem mem_splitSlashD_no_slash (p : List Char) :
    ∀ comp ∈ splitSlashD p, '/' ∉ comp := by
  induction p with
  | nil =>
    intro comp hc
    simp [splitSlashD] at hc
    subst hc
    simp
  | cons c cs ih =>
    intro comp hcm
    by_cases h : c = '/'
    · subst h
      rw [splitSlashD_cons_slash] at hcm
      rcases List.mem_cons.mp hcm with h1 | h1
      · subst h1
        simp
      · exact ih comp h1
    · cases hs : splitSlashD cs with
      | nil => exact absurd hs (splitSlashD_ne_nil cs)
      | cons hh t =>
        rw [splitSlashD_cons_ne c cs h hh t hs] at hcm
        rcases List.mem_cons.mp hcm with h1 | h1
        · subst h1
          intro hmem
          rcases List.mem_cons.mp hmem with h2 | h2
          · exact h h2.symm
          · exact ih hh (by rw [hs]; exact List.mem_cons_self _ _) h2
        · exact ih comp (by rw [hs]; exact List.mem_cons_of_mem _ h1)

/-- A well-formed path component: nonempty, not `.`, not `..`. -/
def cleanComp (c : List Char) : Bool :=
  !c.isEmpty && c != ['.'] && c != ['.', '.']

/-- A relative path in normal form: every component clean (no leading,
trailing or duplicated separator, no `.` or `..`). -/
def relCleanL (p : List Char) : Bool := (splitSlashD p).all cleanComp

/-- An absolute path in normal form: one leading slash, then clean
components. -/
def absCleanL (p : List Char) : Bool :=
  match splitSlashD p with
  | [] :: cs => !cs.isEmpty && cs.all cleanComp
  | _ => false

/-- A plain filename: one clean component with no separator. -/
def plainComp (c : List Char) : Bool :=
  cleanComp c && c.all (fun x => x != '/')

theorem cleanComp_spec (c : List Char) (h : cleanComp c = true) :
    ¬ c = [] ∧ ¬ c = ['.'] ∧ ¬ c = ['.', '.'] := by
  have h' : (!c.isEmpty && c != ['.'] && c != ['.', '.']) = true := h
  simp only [Bool.and_eq_true, Bool.not_eq_true', bne_iff_ne, ne_eq] at h'
  refine ⟨?_, h'.1.2, h'.2⟩
  intro hc
  subst hc
  simp at h'

theorem foldl_normStep_clean (isl : Nat) (cs : List (List Char)) :
    ∀ acc, (∀ c ∈ cs, cleanComp c = true) →
      cs.foldl (normStep isl) acc = acc ++ cs := by
  induction cs with
  | nil =>
    intro acc _
    simp
  | cons c t ih =>
    intro acc hall
    have hc := cleanComp_spec c (hall c (List.mem_cons_self _ _))
    have h1 : normStep isl acc c = acc ++ [c] := by
      unfold normStep
      rw [if_neg (by
        intro hor
        rcases hor with h | h
        · exact hc.1 h
        · exact hc.2.1 h)]
      rw [if_pos (Or.inl hc.2.2)]
    rw [List.foldl_cons, h1, ih (acc ++ [c])
      (fun x hx => hall x (List.mem_cons_of_mem _ hx))]
    simp

theorem joinComps_ne_nil (c : List Char) (t : List (List Char)) (hc : ¬ c = []) :
    ¬ joinComps (c :: t) = [] := by
  cases t with
  | nil => exact hc
  | cons t1 ts =>
    rw [joinComps_cons₂]
    simp

theorem joinComps_cons_head (e : Char) (c' : List Char) (t : List (List Char)) :
    ∃ X, joinComps ((e :: c') :: t) = e :: X := by
  cases t with
  | nil => exact ⟨c', rfl⟩
  | cons t1 ts => exact ⟨c' ++ '/' :: joinComps (t1 :: ts), rfl⟩

theorem mem_of_getLastSome (l : List Char) (a : Char) (h : l.getLast? = some a) :
    a ∈ l := by
  induction l with
  | nil => cases h
  | cons x t ih =>
    cases t with
    | nil =>
      have : x = a := by
        have h' : some x = some a := h
        injection h'
      simp [this]
    | cons y ts =>
      rw [List.getLast?_cons_cons] at h
      exact List.mem_cons_of_mem _ (ih h)

theorem getLast_append_cons (c : List Char) (d : Char) (X : List Char) :
    (c ++ d :: X).getLast? = (d :: X).getLast? := by
  induction c with
  | nil => rfl
  | cons e c' ih =>
    cases hc : c' ++ d :: X with
    | nil => exact absurd hc (by simp)
    | cons y ys =>
      rw [List.cons_append, hc, List.getLast?_cons_cons, ← hc, ih]

theorem joinComps_getLast_ne_slash :
    ∀ (cs : List (List Char)), cs ≠ [] →
      (∀ c ∈ cs, ¬ c = [] ∧ '/' ∉ c) →
      ¬ (joinComps cs).getLast? = some '/' := by
  intro cs
  induction cs with
  | nil =>
    intro h
    exact absurd rfl h
  | cons c t ih =>
    intro _ hall
    obtain ⟨hcne, hcns⟩ := hall c (List.mem_cons_self _ _)
    cases t with
    | nil =>
      intro hl
      exact hcns (mem_of_getLastSome c '/' hl)
    | cons t1 ts =>
      rw [joinComps_cons₂, getLast_append_cons]
      obtain ⟨ht1ne, _⟩ := hall t1 (by simp)
      cases hj : joinComps (t1 :: ts) with
      | nil => exact absurd hj (joinComps_ne_nil t1 ts ht1ne)
      | cons y ys =>
        rw [List.getLast?_cons_cons, ← hj]
        exact ih (by simp) (fun x hx => hall x (List.mem_cons_of_mem _ hx))

theorem normpathL_of_absClean (p : List Char) (h : absCleanL p = true) :
    normpathL p = p := by
  cases hs : splitSlashD p with
  | nil => exact absurd hs (splitSlashD_ne_nil p)
  | cons c0 cs =>
    have h' := h
    unfold absCleanL at h'
    rw [hs] at h'
    cases c0 with
    | cons d l => simp at h'
    | nil =>
      have h'' : (!cs.isEmpty && cs.all cleanComp) = true := h'
      have hclean : ∀ x ∈ cs, cleanComp x = true := by
        have := (Bool.and_eq_true _ _).mp h''
        exact List.all_eq_true.mp this.2
      have hcsne : ¬ cs = [] := by
        intro hc
        subst hc
        simp at h''
      cases cs with
      | nil => exact absurd rfl hcsne
      | cons c1 rest =>
        have hp : p = '/' :: joinComps (c1 :: rest) := by
          conv_lhs => rw [← joinComps_splitSlashD p]
          rw [hs]
          rfl
        have hc1 := cleanComp_spec c1 (hclean c1 (List.mem_cons_self _ _))
        have hc1nos : '/' ∉ c1 :=
          mem_splitSlashD_no_slash p c1
            (by rw [hs]; exact List.mem_cons_of_mem _ (List.mem_cons_self _ _))
        obtain ⟨d, c1', hd⟩ : ∃ d c1', c1 = d :: c1' := by
          cases hq : c1 with
          | nil => exact absurd hq hc1.1
          | cons d c1' => exact ⟨d, c1', rfl⟩
        have hdns : ¬ d = '/' := by
          intro hh
          exact hc1nos (by rw [hd, hh]; exact List.mem_cons_self _ _)
        have hpne : ¬ p = [] := by
          rw [hp]
          simp
        have habs : isAbsL p = true := by
          rw [hp]
          simp [isAbsL]
        have htk : ¬ (p.take 2 = ['/', '/'] ∧ ¬ p.take 3 = ['/', '/', '/']) := by
          intro hpair
          obtain ⟨X, hX⟩ := joinComps_cons_head d c1' rest
          rw [← hd] at hX
          have h2 := hpair.1
          rw [hp, hX] at h2
          simp [List.take] at h2
          exact hdns h2
        have hinit : initSlashes p = 1 := by
          unfold initSlashes
          rw [if_pos habs, if_neg htk]
        have hfold : (splitSlashD p).foldl (normStep (initSlashes p)) []
            = c1 :: rest := by
          rw [hinit, hs, List.foldl_cons,
            show normStep 1 [] [] = [] from rfl,
            foldl_normStep_clean 1 (c1 :: rest) [] hclean, List.nil_append]
        unfold normpathL
        rw [if_neg hpne, hfold, hinit]
        rw [show List.replicate 1 '/' = ['/'] from rfl]
        rw [if_neg (by simp)]
        rw [hp]
        rfl

theorem isAbsL_append_left (a b : List Char) (ha : ¬ a = []) :
    isAbsL (a ++ b) = isAbsL a := by
  cases a with
  | nil => exact absurd rfl ha
  | cons c t => rfl

theorem strEta (s : String) : (⟨s.data⟩ : String) = s := rfl

theorem relClean_facts (p : List Char) (h : relCleanL p = true) :
    ¬ p = [] ∧ ¬ p.getLast? = some '/' ∧ isAbsL p = false := by
  have hall : ∀ x ∈ splitSlashD p, cleanComp x = true := List.all_eq_true.mp h
  cases hs : splitSlashD p with
  | nil => exact absurd hs (splitSlashD_ne_nil p)
  | cons s1 srest =>
    have hs1 := cleanComp_spec s1 (hall s1 (by rw [hs]; exact List.mem_cons_self _ _))
    have hs1nos : '/' ∉ s1 :=
      mem_splitSlashD_no_slash p s1 (by rw [hs]; exact List.mem_cons_self _ _)
    obtain ⟨e, s1', he⟩ : ∃ e s1', s1 = e :: s1' := by
      cases hq : s1 with
      | nil => exact absurd hq hs1.1
      | cons e s1' => exact ⟨e, s1', rfl⟩
    have hens : ¬ e = '/' := fun hh =>
      hs1nos (by rw [he, hh]; exact List.mem_cons_self _ _)
    have hp : p = joinComps (s1 :: srest) := by
      rw [← hs, joinComps_splitSlashD]
    obtain ⟨X, hX⟩ := joinComps_cons_head e s1' srest
    rw [← he] at hX
    refine ⟨?_, ?_, ?_⟩
    · rw [hp, hX]
      simp
    · rw [hp]
      refine joinComps_getLast_ne_slash (s1 :: srest) (by simp) ?_
      intro x hx
      refine ⟨(cleanComp_spec x (hall x (hs ▸ hx))).1, ?_⟩
      exact mem_splitSlashD_no_slash p x (hs ▸ hx)
    · rw [hp, hX]
      show (e == '/') = false
      exact beq_eq_false_iff_ne.mpr hens

theorem plain_facts (c : List Char) (h : plainComp c = true) :
    ¬ c = [] ∧ '/' ∉ c ∧ isAbsL c = false ∧ cleanComp c = true := by
  have h' : (cleanComp c && c.all (fun x => x != '/')) = true := h
  obtain ⟨h1, h2⟩ := (Bool.and_eq_true _ _).mp h'
  have hns : '/' ∉ c := by
    intro hm
    have := List.all_eq_true.mp h2 '/' hm
    simp at this
  have hcne := (cleanComp_spec c h1).1
  refine ⟨hcne, hns, ?_, h1⟩
  obtain ⟨e, c', he⟩ : ∃ e c', c = e :: c' := by
    cases hq : c with
    | nil => exact absurd hq hcne
    | cons e c' => exact ⟨e, c', rfl⟩
  rw [he]
  show (e == '/') = false
  exact beq_eq_false_iff_ne.mpr
    (fun hh => hns (by rw [he, hh]; exact List.mem_cons_self _ _))

theorem absClean_facts (p : List Char) (h : absCleanL p = true) :
    ¬ p = [] ∧ ¬ p.getLast? = some '/' ∧ isAbsL p = true := by
  cases hs : splitSlashD p with
  | nil => exact absurd hs (splitSlashD_ne_nil p)
  | cons c0 cs =>
    have h' := h
    unfold absCleanL at h'
    rw [hs] at h'
    cases c0 with
    | cons d l => simp at h'
    | nil =>
      have h'' : (!cs.isEmpty && cs.all cleanComp) = true := h'
      obtain ⟨h1, h2⟩ := (Bool.and_eq_true _ _).mp h''
      have hall := List.all_eq_true.mp h2
      cases cs with
      | nil => simp at h1
      | cons c1 rest =>
        have hp : p = '/' :: joinComps (c1 :: rest) := by
          conv_lhs => rw [← joinComps_splitSlashD p]
          rw [hs]
          rfl
        have hc1 := cleanComp_spec c1 (hall c1 (List.mem_cons_self _ _))
        refine ⟨by rw [hp]; simp, ?_, by rw [hp]; simp [isAbsL]⟩
        rw [hp]
        cases hj : joinComps (c1 :: rest) with
        | nil => exact absurd hj (joinComps_ne_nil c1 rest hc1.1)
        | cons y ys =>
          rw [List.getLast?_cons_cons, ← hj]
          refine joinComps_getLast_ne_slash (c1 :: rest) (by simp) ?_
          intro x hx
          refine ⟨(cleanComp_spec x (hall x hx)).1, ?_⟩
          exact mem_splitSlashD_no_slash p x
            (by rw [hs]; exact List.mem_cons_of_mem _ hx)

theorem absCleanL_intro (cs : List (List Char)) (p : List Char)
    (hsplit : splitSlashD p = [] :: cs) (hne : ¬ cs = [])
    (hall : ∀ x ∈ cs, cleanComp x = true) : absCleanL p = true := by
  unfold absCleanL
  rw [hsplit]
  show (!cs.isEmpty && cs.all cleanComp) = true
  rw [List.all_eq_true.mpr hall]
  cases cs with
  | nil => exact absurd rfl hne
  | cons a t => rfl

theorem slashData : ("/" : String).data = ['/'] := rfl

theorem joinPath_rel (a b : String) (hb : isAbs b = false)
    (hane : ¬ a.data = []) (halast : ¬ a.data.getLast? = some '/') :
    joinPath a b = a ++ "/" ++ b := by
  unfold joinPath
  rw [if_neg (by simp [hb]), if_neg (by
    intro hor
    rcases hor with h | h
    · exact hane h
    · exact halast h)]

theorem data_triple (a b : String) :
    (a ++ "/" ++ b).data = a.data ++ '/' :: b.data := by
  rw [String.data_append, String.data_append, slashData, List.append_assoc]
  rfl

/-- The absolute path `cwd ++ "/" ++ q` is in normal form whenever `cwd`
is absolute-clean and `q`'s components are clean. -/
theorem absClean_join (cwd q : String) (hcwd : absCleanL cwd.data = true)
    (hq : ∀ x ∈ splitSlashD q.data, cleanComp x = true) :
    absCleanL (cwd ++ "/" ++ q).data = true := by
  cases hs : splitSlashD cwd.data with
  | nil => exact absurd hs (splitSlashD_ne_nil cwd.data)
  | cons c0 ccs =>
    have h' := hcwd
    unfold absCleanL at h'
    rw [hs] at h'
    cases c0 with
    | cons d l => simp at h'
    | nil =>
      have h'' : (!ccs.isEmpty && ccs.all cleanComp) = true := h'
      obtain ⟨h1, h2⟩ := (Bool.and_eq_true _ _).mp h''
      have hall := List.all_eq_true.mp h2
      have hsplit : splitSlashD (cwd ++ "/" ++ q).data
          = [] :: (ccs ++ splitSlashD q.data) := by
        rw [data_triple, splitSlashD_append_slash, hs, List.cons_append]
      refine absCleanL_intro _ _ hsplit ?_ ?_
      · intro hc
        cases hcc : ccs with
        | nil => rw [hcc] at h1; simp at h1
        | cons x t => rw [hcc] at hc; simp at hc
      · intro x hx
        rcases List.mem_append.mp hx with h3 | h3
        · exact hall x h3
        · exact hq x h3

theorem abspath_clean_join (cwd q : String) (hcwd : absCleanL cwd.data = true)
    (hqabs : isAbs q = false)
    (hqclean : ∀ x ∈ splitSlashD q.data, cleanComp x = true) :
    abspath cwd q = cwd ++ "/" ++ q := by
  obtain ⟨hcne, hclast, _⟩ := absClean_facts cwd.data hcwd
  unfold abspath
  rw [if_neg (by simp [hqabs]), joinPath_rel cwd q hqabs hcne hclast,
    normpathL_of_absClean _ (absClean_join cwd q hcwd hqclean), strEta]

/-- C4 counterexample: with filename `../escape.png` the capture succeeds
and returns a path outside the requested output directory — the `..`
component resolves to the parent of `save_dir`. -/
theorem capture_path_escapes_dir :
    (save_screenshot behOK .value "screenshots" (some "../escape.png") "/cwd"
        ⟨[], []⟩).result = .ok "/cwd/escape.png"
    ∧ ((abspath "/cwd" "screenshots" ++ "/").data).isPrefixOf
        ("/cwd/escape.png" : String).data = false := by
  constructor
  · rfl
  · decide

/-- C4 (amended): a successful capture returns an absolute output path
with the PNG present at it, and — when the working directory is an
absolute normal-form path, the output directory a relative normal-form
path and the filename a single plain component — that path lies inside
the requested output directory. -/
theorem success_capture_path_and_png (beh : Beh) (layout : LayoutArg)
    (save_dir : String) (filename : Option String) (cwd : String) (fs0 : FS)
    (hp : beh.producerRes = none) (hm : beh.makedirsRes = none)
    (hk : beh.mkstempRes = none) (hs : beh.saveRes = none)
    (hf : beh.fixRes = none) (hr : beh.renderRes = none)
    (hcwd : absCleanL cwd.data = true)
    (hsd : relCleanL save_dir.data = true)
    (hfn : plainComp (resolvedFilename beh filename).data = true)
    (hne : abspath cwd (joinPath save_dir (resolvedFilename beh filename))
      ≠ tmpHtmlPath beh save_dir) :
    (save_screenshot beh layout save_dir filename cwd fs0).result
      = .ok (abspath cwd (joinPath save_dir (resolvedFilename beh filename)))
    ∧ isAbs (abspath cwd (joinPath save_dir (resolvedFilename beh filename))) = true
    ∧ ((abspath cwd save_dir ++ "/").data).isPrefixOf
        (abspath cwd (joinPath save_dir (resolvedFilename beh filename))).data = true
    ∧ (save_screenshot beh layout save_dir filename cwd fs0).fs.existsFile
        (abspath cwd (joinPath save_dir (resolvedFilename beh filename))) = true := by
  obtain ⟨hsdne, hsdlast, hsdabs⟩ := relClean_facts save_dir.data hsd
  obtain ⟨hfne, hfns, hfabs, hfclean⟩ :=
    plain_facts (resolvedFilename beh filename).data hfn
  obtain ⟨hcne, _, hcabs⟩ := absClean_facts cwd.data hcwd
  have hsdall : ∀ x ∈ splitSlashD save_dir.data, cleanComp x = true :=
    List.all_eq_true.mp hsd
  have hj1 : joinPath save_dir (resolvedFilename beh filename)
      = save_dir ++ "/" ++ resolvedFilename beh filename :=
    joinPath_rel _ _ hfabs hsdne hsdlast
  have hq_data : (save_dir ++ "/" ++ resolvedFilename beh filename).data
      = save_dir.data ++ '/' :: (resolvedFilename beh filename).data :=
    data_triple _ _
  have hqabs : isAbs (save_dir ++ "/" ++ resolvedFilename beh filename) = false := by
    show isAbsL (save_dir ++ "/" ++ resolvedFilename beh filename).data = false
    rw [hq_data, isAbsL_append_left _ _ hsdne, hsdabs]
  have hqclean : ∀ x ∈ splitSlashD
      (save_dir ++ "/" ++ resolvedFilename beh filename).data,
      cleanComp x = true := by
    intro x hx
    rw [hq_data, splitSlashD_append_slash,
      splitSlashD_no_slash _ hfns] at hx
    rcases List.mem_append.mp hx with h1 | h1
    · exact hsdall x h1
    · have : x = (resolvedFilename beh filename).data := by
        rcases List.mem_cons.mp h1 with h2 | h2
        · exact h2
        · simp at h2
      rw [this]
      exact hfclean
  have hout : abspath cwd (joinPath save_dir (resolvedFilename beh filename))
      = cwd ++ "/" ++ (save_dir ++ "/" ++ resolvedFilename beh filename) := by
    rw [hj1]
    exact abspath_clean_join cwd _ hcwd hqabs hqclean
  have hdir : abspath cwd save_dir = cwd ++ "/" ++ save_dir := by
    refine abspath_clean_join cwd save_dir hcwd ?_ hsdall
    show isAbsL save_dir.data = false
    exact hsdabs
  refine ⟨?_, ?_, ?_, ?_⟩
  · cases layout <;> simp [save_screenshot, hp, hm, hk, hs, hf, hr]
  · rw [hout]
    show isAbsL (cwd ++ "/" ++ (save_dir ++ "/"
      ++ resolvedFilename beh filename)).data = true
    rw [data_triple, isAbsL_append_left _ _ hcne]
    exact hcabs
  · rw [hout, hdir]
    refine isPrefixOf_of_eq_append _ (resolvedFilename beh filename).data _ ?_
    simp [String.data_append, slashData, List.append_assoc]
  · cases layout <;>
      simp [save_screenshot, hp, hm, hk, hs, hf, hr,
        cleanupFS_existsFile_other _ _ _ hne, writeFile_existsFile_self]

theorem success_capture_path_and_png_witness :
    (save_screenshot behOK .value "screenshots" none "/cwd" ⟨[], []⟩).result
      = .ok (abspath "/cwd" (joinPath "screenshots" (resolvedFilename behOK none)))
    ∧ isAbs (abspath "/cwd" (joinPath "screenshots"
        (resolvedFilename behOK none))) = true
    ∧ ((abspath "/cwd" "screenshots" ++ "/").data).isPrefixOf
        (abspath "/cwd" (joinPath "screenshots"
          (resolvedFilename behOK none))).data = true
    ∧ (save_screenshot behOK .value "screenshots" none "/cwd" ⟨[], []⟩).fs.existsFile
        (abspath "/cwd" (joinPath "screenshots" (resolvedFilename behOK none)))
      = true :=
  success_capture_path_and_png behOK .value "screenshots" none "/cwd" ⟨[], []⟩
    rfl rfl rfl rfl rfl rfl (by decide) (by decide) (by decide) (by decide)

theorem makedirs_files (fs : FS) (d : String) : (fs.makedirs d).files = fs.files := by
  unfold FS.makedirs
  by_cases h : fs.dirs.contains d = true
  · rw [if_pos h]
  · rw [if_neg h]

theorem makedirs_contains (fs : FS) (d : String) :
    (fs.makedirs d).dirs.contains d = true := by
  unfold FS.makedirs
  by_cases h : fs.dirs.contains d = true
  · rw [if_pos h]
    exact h
  · rw [if_neg h]
    simp [List.contains_cons]

theorem makedirs_mem (fs : FS) (d : String) : d ∈ (fs.makedirs d).dirs := by
  simpa using makedirs_contains fs d

theorem cleanupFS_dirs (fs : FS) (t : Option String) :
    (cleanupFS fs t).dirs = fs.dirs := by
  cases t with
  | none => rfl
  | some p =>
    show (if fs.existsFile p then fs.unlink p else fs).dirs = fs.dirs
    by_cases h : fs.existsFile p = true
    · rw [if_pos h]
      rfl
    · rw [if_neg h]

theorem writeFile_dirs (fs : FS) (p c : String) : (fs.writeFile p c).dirs = fs.dirs :=
  rfl

theorem filter_ne_of_not_exists (l : List (String × String)) (p : String)
    (h : l.any (fun f => f.1 == p) = false) :
    l.filter (fun f => f.1 != p) = l := by
  induction l with
  | nil => rfl
  | cons a t ih =>
    rw [List.any_cons] at h
    have h1 : (a.1 == p) = false := by
      cases hq : (a.1 == p)
      · rfl
      · rw [hq] at h
        simp at h
    have h2 : t.any (fun f => f.1 == p) = false := by
      cases hq : t.any (fun f => f.1 == p)
      · rfl
      · rw [hq] at h
        simp at h
    have hb : (a.1 != p) = true := by simp only [bne, h1, Bool.not_false]
    rw [List.filter_cons, hb, if_pos rfl, ih h2]

theorem writeFile_existsFile_other (fs : FS) (q c p : String) (h : p ≠ q) :
    (fs.writeFile q c).existsFile p = fs.existsFile p := by
  show ((q, c) :: fs.files.filter (fun f => f.1 != q)).any (fun f => f.1 == p)
    = fs.files.any (fun f => f.1 == p)
  rw [List.any_cons]
  have hq : (q == p) = false := beq_eq_false_iff_ne.mpr (Ne.symm h)
  rw [hq, filter_ne_any_other fs.files q p h]
  rfl

def isMkstempEv : Ev → Bool
  | .mkstemp _ => true
  | _ => false

def isUnlinkEv : Ev → Bool
  | .unlink _ => true
  | _ => false

def isCallProducer : Ev → Bool
  | .callProducer => true
  | _ => false

theorem cleanupTrace_of_exists (fs : FS) (t : String)
    (h : fs.existsFile t = true) : cleanupTrace fs (some t) = [.unlink t] := by
  show (if fs.existsFile t then _ else _) = _
  rw [if_pos h]

theorem not_key_of_not_exists (fs : FS) (p : String)
    (h : fs.existsFile p = false) (a b : String)
    (hab : (a, b) ∈ fs.files) : ¬ a = p := by
  intro heq
  have hany : fs.files.any (fun f => f.1 == p) = true :=
    List.any_eq_true.mpr ⟨(a, b), hab, by simp [heq]⟩
  have h' : fs.files.any (fun f => f.1 == p) = false := h
  rw [hany] at h'
  simp at h'

theorem capture_success_files (fs0 : FS) (sd tmp out html fix : String)
    (h0tmp : fs0.existsFile tmp = false) (h0out : fs0.existsFile out = false)
    (hne : out ≠ tmp) :
    (cleanupFS (((((fs0.makedirs sd).writeFile tmp "").writeFile tmp
        html).writeFile tmp fix).writeFile out "PNG") (some tmp)).files
      = (out, "PNG") :: fs0.files := by
  have hot : (out == tmp) = false := beq_eq_false_iff_ne.mpr hne
  have hto : (tmp == out) = false := beq_eq_false_iff_ne.mpr (Ne.symm hne)
  simp [cleanupFS, FS.writeFile, FS.unlink, FS.existsFile, makedirs_files,
    hot, hto, bne, List.filter_cons, List.any_cons]
  exact fun a b hab => ⟨not_key_of_not_exists fs0 tmp h0tmp a b hab,
    not_key_of_not_exists fs0 out h0out a b hab,
    not_key_of_not_exists fs0 tmp h0tmp a b hab⟩

theorem capture_error_files (fs0 : FS) (sd tmp html fix : String)
    (h0tmp : fs0.existsFile tmp = false) :
    (cleanupFS ((((fs0.makedirs sd).writeFile tmp "").writeFile tmp
        html).writeFile tmp fix) (some tmp)).files = fs0.files := by
  simp [cleanupFS, FS.writeFile, FS.unlink, FS.existsFile, makedirs_files,
    bne, List.filter_cons, List.any_cons]
  exact fun a b hab => not_key_of_not_exists fs0 tmp h0tmp a b hab

/-- C5: filesystem side effects of one capture: the output directory is
present afterwards, exactly one temporary HTML file is created and
exactly one deletion is performed; a successful call creates exactly one
PNG (the final file list is the PNG entry plus the initial files); if
the rendering engine raises, the error is re-raised after cleanup, the
file list is unchanged and no PNG is left on disk. -/
theorem capture_filesystem_effects (beh : Beh) (layout : LayoutArg)
    (save_dir : String) (filename : Option String) (cwd : String) (fs0 : FS)
    (hp : beh.producerRes = none) (hm : beh.makedirsRes = none)
    (hk : beh.mkstempRes = none) (hs : beh.saveRes = none)
    (hf : beh.fixRes = none)
    (h0tmp : fs0.existsFile (tmpHtmlPath beh save_dir) = false)
    (h0out : fs0.existsFile
      (abspath cwd (joinPath save_dir (resolvedFilename beh filename))) = false)
    (hne : abspath cwd (joinPath save_dir (resolvedFilename beh filename))
      ≠ tmpHtmlPath beh save_dir) :
    (save_screenshot beh layout save_dir filename cwd fs0).trace.countP
      isMkstempEv = 1
    ∧ (save_screenshot beh layout save_dir filename cwd fs0).trace.countP
      isUnlinkEv = 1
    ∧ (save_screenshot beh layout save_dir filename cwd fs0).fs.dirs.contains
      save_dir = true
    ∧ (beh.renderRes = none →
        (save_screenshot beh layout save_dir filename cwd fs0).result
          = .ok (abspath cwd (joinPath save_dir (resolvedFilename beh filename)))
        ∧ (save_screenshot beh layout save_dir filename cwd fs0).fs.files
          = (abspath cwd (joinPath save_dir (resolvedFilename beh filename)),
              "PNG") :: fs0.files)
    ∧ (∀ e, beh.renderRes = some e →
        (save_screenshot beh layout save_dir filename cwd fs0).result = .error e
        ∧ (save_screenshot beh layout save_dir filename cwd fs0).fs.files
          = fs0.files
        ∧ (save_screenshot beh layout save_dir filename cwd fs0).fs.existsFile
            (abspath cwd (joinPath save_dir (resolvedFilename beh filename)))
          = false) := by
  have hne' : tmpHtmlPath beh save_dir
      ≠ abspath cwd (joinPath save_dir (resolvedFilename beh filename)) :=
    Ne.symm hne
  refine ⟨?_, ?_, ?_, ?_, ?_⟩
  · cases layout <;> cases hr : beh.renderRes <;>
      simp [save_screenshot, hp, hm, hk, hs, hf, hr, producerTrace,
        List.countP_append, List.countP_cons, isMkstempEv, isUnlinkEv,
        cleanupTrace_of_exists, writeFile_existsFile_self,
        writeFile_existsFile_other, hne']
  · cases layout <;> cases hr : beh.renderRes <;>
      simp [save_screenshot, hp, hm, hk, hs, hf, hr, producerTrace,
        List.countP_append, List.countP_cons, isMkstempEv, isUnlinkEv,
        cleanupTrace_of_exists, writeFile_existsFile_self,
        writeFile_existsFile_other, hne']
  · cases layout <;> cases hr : beh.renderRes <;>
      simp [save_screenshot, hp, hm, hk, hs, hf, hr, cleanupFS_dirs,
        writeFile_dirs, makedirs_contains, makedirs_mem]
  · intro hr
    constructor
    · cases layout <;> simp [save_screenshot, hp, hm, hk, hs, hf, hr]
    · cases layout <;>
        (simp only [save_screenshot, hp, hm, hk, hs, hf, hr]
         exact capture_success_files fs0 save_dir _ _ _ _ h0tmp h0out hne)
  · intro e hr
    refine ⟨?_, ?_, ?_⟩
    · cases layout <;> simp [save_screenshot, hp, hm, hk, hs, hf, hr]
    · cases layout <;>
        (simp only [save_screenshot, hp, hm, hk, hs, hf, hr]
         exact capture_error_files fs0 save_dir _ _ _ h0tmp)
    · cases layout <;>
        (simp only [save_screenshot, hp, hm, hk, hs, hf, hr]
         rw [cleanupFS_existsFile_other _ _ _ hne,
           writeFile_existsFile_other _ _ _ _ hne,
           writeFile_existsFile_other _ _ _ _ hne,
           writeFile_existsFile_other _ _ _ _ hne, makedirs_existsFile]
         exact h0out)

theorem capture_filesystem_effects_witness :
    (save_screenshot behOK .value "shots" (some "out.png") "/cwd" ⟨[], []⟩).result
      = .ok (abspath "/cwd" (joinPath "shots" (resolvedFilename behOK (some "out.png"))))
    ∧ (save_screenshot behOK .value "shots" (some "out.png") "/cwd" ⟨[], []⟩).fs.files
      = (abspath "/cwd" (joinPath "shots" (resolvedFilename behOK (some "out.png"))),
          "PNG") :: (⟨[], []⟩ : FS).files :=
  (capture_filesystem_effects behOK .value "shots" (some "out.png") "/cwd" ⟨[], []⟩
    rfl rfl rfl rfl rfl (by decide) (by decide) (by decide)).2.2.2.1 rfl

/-- C6: the rasterization step performs, in exactly this order: launch a
headless browser, open a page with a 1280 by 720 viewport, load the HTML
file and wait for network idle, wait a further fixed 2000 ms, capture a
full-page screenshot to the output path, close the browser. -/
theorem render_action_order (html_path output_path : String) :
    (renderHtmlToPngActions html_path output_path).length = 6
    ∧ (renderHtmlToPngActions html_path output_path).head?
      = some (.launch true)
    ∧ (renderHtmlToPngActions html_path output_path)[1]?
      = some (.newPage 1280 720)
    ∧ (renderHtmlToPngActions html_path output_path)[2]?
      = some (.goto ("file://" ++ html_path) "networkidle")
    ∧ (renderHtmlToPngActions html_path output_path)[3]?
      = some (.waitForTimeout 2000)
    ∧ (renderHtmlToPngActions html_path output_path)[4]?
      = some (.screenshot output_path true)
    ∧ (renderHtmlToPngActions html_path output_path)[5]?
      = some .closeBrowser :=
  ⟨rfl, rfl, rfl, rfl, rfl, rfl, rfl⟩

theorem countP_callProducer_cleanupTrace (fs : FS) (t : Option String) :
    (cleanupTrace fs t).countP isCallProducer = 0 := by
  cases t with
  | none => rfl
  | some p =>
    show List.countP isCallProducer
      (if fs.existsFile p then [Ev.unlink p] else []) = 0
    by_cases h : fs.existsFile p = true
    · rw [if_pos h]
      rfl
    · rw [if_neg h]
      rfl

/-- C7: a callable layout argument is invoked exactly once, as the very
first step of the capture; a non-callable layout argument is never
invoked. -/
theorem producer_called_exactly_once_at_start (beh : Beh) (save_dir : String)
    (filename : Option String) (cwd : String) (fs0 : FS) :
    (save_screenshot beh .producer save_dir filename cwd fs0).trace.countP
      isCallProducer = 1
    ∧ (save_screenshot beh .producer save_dir filename cwd fs0).trace.head?
      = some .callProducer
    ∧ (save_screenshot beh .value save_dir filename cwd fs0).trace.countP
      isCallProducer = 0 := by
  refine ⟨?_, ?_, ?_⟩
  · cases hp : beh.producerRes <;> cases hm : beh.makedirsRes <;>
      cases hk : beh.mkstempRes <;> cases hs : beh.saveRes <;>
      cases hf : beh.fixRes <;> cases hr : beh.renderRes <;>
      simp [save_screenshot, hp, hm, hk, hs, hf, hr, producerTrace,
        List.countP_append, List.countP_cons, isCallProducer,
        countP_callProducer_cleanupTrace]
  · cases hp : beh.producerRes <;> cases hm : beh.makedirsRes <;>
      cases hk : beh.mkstempRes <;> cases hs : beh.saveRes <;>
      cases hf : beh.fixRes <;> cases hr : beh.renderRes <;>
      simp [save_screenshot, hp, hm, hk, hs, hf, hr, producerTrace]
  · cases hp : beh.producerRes <;> cases hm : beh.makedirsRes <;>
      cases hk : beh.mkstempRes <;> cases hs : beh.saveRes <;>
      cases hf : beh.fixRes <;> cases hr : beh.renderRes <;>
      simp [save_screenshot, hp, hm, hk, hs, hf, hr, producerTrace,
        List.countP_append, List.countP_cons, isCallProducer,
        countP_callProducer_cleanupTrace]

/-- C8: on every activation the click handler first shows the in-progress
status, then — for every possible outcome of the capture — either the
success status containing the returned path or the failure status
containing the error text; it always runs to completion (the failure is
caught, never propagated). -/
theorem on_click_status_transitions (beh : Beh) (layout : LayoutArg)
    (save_dir : String) (filename : Option String) (cwd : String) (fs0 : FS) :
    (onClick (save_screenshot beh layout save_dir filename cwd fs0).result).head?
      = some ⟨true, "info", "Taking screenshot..."⟩
    ∧ (onClick (save_screenshot beh layout save_dir filename cwd fs0).result)[1]?
      = some (match (save_screenshot beh layout save_dir filename cwd fs0).result with
          | .ok p => ⟨true, "success", "Saved: " ++ p⟩
          | .error e => ⟨true, "danger", "Error: " ++ errText e⟩)
    ∧ (onClick (save_screenshot beh layout save_dir filename cwd fs0).result).length
      = 2 := by
  cases hres : (save_screenshot beh layout save_dir filename cwd fs0).result <;>
    simp [onClick, hres]

theorem countP_unlink_cleanupTrace_none (fs : FS) :
    (cleanupTrace fs none).countP isUnlinkEv = 0 := rfl

/-- C10: when the capture fails before the temporary HTML file is
allocated — the producer, the directory creation, or the temp-file
allocation raises — the original exception propagates unchanged, no
deletion is attempted, and the file list is untouched (the cleanup block
is a no-op because the temp-path variable is still unset). -/
theorem early_failure_cleanup_noop (beh : Beh) (layout : LayoutArg)
    (save_dir : String) (filename : Option String) (cwd : String) (fs0 : FS)
    (e : Err) :
    (layout = .producer → beh.producerRes = some e →
      (save_screenshot beh layout save_dir filename cwd fs0).result = .error e
      ∧ (save_screenshot beh layout save_dir filename cwd fs0).fs = fs0
      ∧ (save_screenshot beh layout save_dir filename cwd fs0).trace.countP
          isUnlinkEv = 0)
    ∧ (beh.producerRes = none → beh.makedirsRes = some e →
      (save_screenshot beh layout save_dir filename cwd fs0).result = .error e
      ∧ (save_screenshot beh layout save_dir filename cwd fs0).fs = fs0
      ∧ (save_screenshot beh layout save_dir filename cwd fs0).trace.countP
          isUnlinkEv = 0)
    ∧ (beh.producerRes = none → beh.makedirsRes = none →
        beh.mkstempRes = some e →
      (save_screenshot beh layout save_dir filename cwd fs0).result = .error e
      ∧ (save_screenshot beh layout save_dir filename cwd fs0).fs.files
          = fs0.files
      ∧ (save_screenshot beh layout save_dir filename cwd fs0).trace.countP
          isUnlinkEv = 0) := by
  refine ⟨?_, ?_, ?_⟩
  · intro hl hp
    subst hl
    simp [save_screenshot, hp, isUnlinkEv]
  · intro hp hm
    cases layout <;>
      simp [save_screenshot, hp, hm, producerTrace, List.countP_append,
        List.countP_cons, isUnlinkEv]
  · intro hp hm hk
    cases layout <;>
      simp [save_screenshot, hp, hm, hk, cleanupFS_none, makedirs_files,
        producerTrace, List.countP_append, List.countP_cons, isUnlinkEv,
        cleanupTrace]

def behPF : Beh :=
  ⟨some (.producerError "nope"), none, none, "tmpf", none, "", none, none,
    "1.8.7", "20260101_120000"⟩

theorem early_failure_cleanup_noop_witness :
    (save_screenshot behPF .producer "screenshots" none "/cwd" ⟨[], []⟩).result
      = .error (.producerError "nope")
    ∧ (save_screenshot behPF .producer "screenshots" none "/cwd" ⟨[], []⟩).fs
      = ⟨[], []⟩
    ∧ (save_screenshot behPF .producer "screenshots" none "/cwd"
        ⟨[], []⟩).trace.countP isUnlinkEv = 0 :=
  (early_failure_cleanup_noop behPF .producer "screenshots" none "/cwd"
    ⟨[], []⟩ (.producerError "nope")).1 rfl rfl
